import Mathlib

/-!
Shallow embedding of the windowed cumulative-comparison core of the
cumulative_onboarding dashboard (src/app.py), together with proofs about it.

Calendar dates are modelled as integers (day numbers); the events handed to
`get_window_data` are the day-normalized `date_created` values of the input
frame (the pipeline parses them with the day-level format `"%m/%d/%Y"`, so
every timestamp is a bare date).  Python floats that can be `NaN` are
modelled as `Option ℚ` with `none` for `NaN`.

`pandas.merge(..., how="outer")` is documented to use the union of the keys
of both frames and to sort the keys lexicographically; the frames merged in
`get_window_data` carry unique keys, so the merge is modelled as a map over
the sorted, deduplicated union of the key lists.
-/

namespace CumulativeOnboarding

/-- The list of `n` consecutive days starting at `s` (the list underlying a daily
`pd.date_range`). -/
def dateRangeGo : Nat → Int → List Int
  | 0, _ => []
  | n + 1, s => s :: dateRangeGo n (s + 1)

/-- Model of `pd.date_range(start=s, end=e, freq="D")`: the consecutive days from `s`
to `e` inclusive; empty when `s > e`. -/
def dateRange (s e : Int) : List Int :=
  dateRangeGo (e - s + 1).toNat s

/-- Number of events falling on day `d` (one key's `value_counts` entry). -/
def countOn (events : List Int) (d : Int) : Int :=
  (events.countP (fun x => x == d) : Int)

/-- Lines 102–103 of app.py: the events restricted to `[startDate, endDate]`,
counted per day and sorted by day (`value_counts().sort_index()`); days with
no events do not appear. -/
def rawCounts (events : List Int) (startDate endDate : Int) : List (Int × Int) :=
  (((dateRange startDate endDate).map (fun d => (d, countOn events d))).filter
    (fun r => r.2 ≠ 0))

/-- Insert a key into an ascending, duplicate-free key list, keeping it
ascending and duplicate-free. -/
def insertKey (d : Int) : List Int → List Int
  | [] => [d]
  | x :: xs =>
    if d < x then d :: x :: xs
    else if d = x then x :: xs
    else x :: insertKey d xs

/-- The union of two key lists, sorted ascending with duplicates removed:
the key order `pandas.merge(how="outer")` documents ("use union of keys from
both frames ...; sort keys lexicographically"). -/
def sortedKeys (xs ys : List Int) : List Int :=
  (xs ++ ys).foldr insertKey []

/-- The `count` recorded for key `d` in a frame, or `0` when the frame has no
row for `d` (the subsequent `fillna(0)`). -/
def lookupCount (rows : List (Int × Int)) (d : Int) : Int :=
  match rows with
  | [] => 0
  | r :: rs => if r.1 = d then r.2 else lookupCount rs d

/-- Model of `frame.merge(dates, how="outer").fillna(0)` for a frame keyed by unique
dates merged with a bare date list (in either argument order): one row per
key of the sorted union, the count taken from the keyed frame and defaulting
to `0`. -/
def outerMergeFill (rows : List (Int × Int)) (dates : List Int) : List (Int × Int) :=
  (sortedKeys (rows.map Prod.fst) dates).map (fun d => (d, lookupCount rows d))

/-- One row of a window frame: `date_created`, `count`, `cumsum`. -/
structure WRow where
  date : Int
  count : Int
  cum : Int
deriving Repr, DecidableEq

/-- Model of `frame['cumsum'] = frame['count'].cumsum()` (lines 129–134): attach the
running sum of the `count` column, row by row, starting from `acc`. -/
def withCumsum (acc : Int) : List (Int × Int) → List WRow
  | [] => []
  | r :: rs => ⟨r.1, r.2, acc + r.2⟩ :: withCumsum (acc + r.2) rs

/-- The five frames `get_window_data` returns. -/
structure WindowSet where
  data : List WRow
  current : List WRow
  previous : List WRow
  previous2 : List WRow
  previous3 : List WRow
deriving Repr, DecidableEq

/-- Model of `get_window_data(df, days)` (app.py lines 82–136).  `currentDate` models
the module-level global `CURRENT_DATE` the function reads; `events` are the
day-normalized `date_created` values of `df`.  Lines 110, 114, 118 and 121
each recompute `ts.merge(raw_data, how='outer').fillna(0)` and then slice it
by a pair of date bounds; lines 125–127 re-join the first three slices with
their own full day skeletons (`previous_data3` is not re-joined). -/
def get_window_data (currentDate : Int) (events : List Int) (days : Int) : WindowSet :=
  let start_curr := currentDate - days
  let start_prev := currentDate - 2 * days
  let start_prev2 := currentDate - 3 * days
  let start_prev3 := currentDate - 4 * days
  let ts_curr := dateRange start_curr currentDate
  let ts_prev := dateRange start_prev start_curr
  let ts_prev2 := dateRange start_prev2 start_prev
  let start_date := start_prev3
  let end_date := currentDate
  let raw_data := rawCounts events start_date end_date
  let ts := dateRange start_date end_date
  let data := outerMergeFill raw_data ts
  let current_data := (outerMergeFill raw_data ts).filter
    (fun r => decide (start_curr < r.1 ∧ r.1 ≤ currentDate))
  let previous_data := (outerMergeFill raw_data ts).filter
    (fun r => decide (start_prev < r.1 ∧ r.1 ≤ start_curr))
  let previous_data2 := (outerMergeFill raw_data ts).filter
    (fun r => decide (start_prev2 < r.1 ∧ r.1 ≤ start_prev))
  let previous_data3 := (outerMergeFill raw_data ts).filter
    (fun r => decide (start_prev3 < r.1 ∧ r.1 ≤ start_prev2))
  let current_data := outerMergeFill current_data ts_curr
  let previous_data := outerMergeFill previous_data ts_prev
  let previous_data2 := outerMergeFill previous_data2 ts_prev2
  { data := withCumsum 0 data
    current := withCumsum 0 current_data
    previous := withCumsum 0 previous_data
    previous2 := withCumsum 0 previous_data2
    previous3 := withCumsum 0 previous_data3 }

/-- A Python float as used by the delta computation: an exact value, or
`none` for `NaN` (`NaN == 0` is false and arithmetic on `NaN` gives `NaN`). -/
abbrev PFloat := Option ℚ

/-- Model of `calc_delta(curr, prev)` (app.py lines 138–145). -/
def calc_delta (curr prev : PFloat) : PFloat :=
  if prev = some 0 then
    if curr = some 0 then some 0 else some 1
  else
    match curr, prev with
    | some c, some p => some ((c - p) / p)
    | _, _ => none

/-- A row handed to `create_combined_data`: `count` is `none` when the cell
is missing or non-numeric (what `pd.to_numeric(..., errors='coerce')` turns
into `NaN`). -/
structure CRow where
  date : Int
  count : Option Int
  cum : Int
deriving Repr, DecidableEq

/-- Model of `Series.max()` over a column: `NaN` (`none`) on an empty frame. -/
def seriesMax (xs : List Int) : Option Int :=
  match xs with
  | [] => none
  | x :: rest => some (rest.foldl max x)

/-- The maximum of a frame's `cumsum` column, as the Python float
`frame['cumsum'].max()`. -/
def maxCum (rows : List CRow) : PFloat :=
  match seriesMax (rows.map CRow.cum) with
  | some m => some (m : ℚ)
  | none => none

/-- Model of `get_delta_pct` (lines 147–181): the delta of the two windows' `cumsum`
maxima, plus the line colors its sign selects (`NaN < 0` is false, so a
`NaN` delta takes the green branch). -/
def get_delta_pct (current_data previous_data : List CRow) :
    PFloat × String × String :=
  let delta_pct := calc_delta (maxCum current_data) (maxCum previous_data)
  match delta_pct with
  | some d =>
    if d < 0 then (some d, "rgba(255, 43, 43, 0.1)", "rgb(255, 43, 43)")
    else (some d, "rgba(33, 195, 84, 0.1)", "rgb(21, 130, 55)")
  | none => (none, "rgba(33, 195, 84, 0.1)", "rgb(21, 130, 55)")

/-- One row of the combined frame: the input columns, the `period` tag and
the recomputed `combined_cumsum`. -/
structure PRow where
  date : Int
  count : Option Int
  cum : Int
  period : String
  combined : Int
deriving Repr, DecidableEq

/-- Model of `combined_data['combined_cumsum'] = combined_data['count'].fillna(0).cumsum()`
(line 214) applied to the tagged concatenation: attach the running sum of the
`count` column (missing counts as 0), starting from `acc`. -/
def withCombined (acc : Int) : List (CRow × String) → List PRow
  | [] => []
  | r :: rs =>
    ⟨r.1.date, r.1.count, r.1.cum, r.2, acc + r.1.count.getD 0⟩ ::
      withCombined (acc + r.1.count.getD 0) rs

/-- What `create_combined_data` returns. -/
structure CombinedResult where
  combined_data : List PRow
  delta_pct : PFloat
  curr_line_color : String
  curr_line_color_bg : String
deriving Repr, DecidableEq

/-- Model of `create_combined_data(current_data, previous_data)` (lines 183–216).
The `ValueError` raised when `previous_data` has fewer than 2 rows is
modelled as `Except.error`; the delta is computed before that check, as in
the source. -/
def create_combined_data (current_data previous_data : List CRow) :
    Except String CombinedResult :=
  let dp := get_delta_pct current_data previous_data
  if previous_data.length < 2 then
    .error "previous_data needs at least 2 rows."
  else
    let new_row : CRow :=
      { date := (previous_data.getD (previous_data.length - 2) ⟨0, none, 0⟩).date
        count := some 0
        cum := 0 }
    let current' := new_row :: current_data
    let previous' := previous_data.dropLast
    let tagged := previous'.map (fun r => (r, "previous")) ++
      current'.map (fun r => (r, "current"))
    .ok { combined_data := withCombined 0 tagged
          delta_pct := dp.1
          curr_line_color := dp.2.1
          curr_line_color_bg := dp.2.2 }

/-! ### Basic facts about the day skeletons -/

theorem dateRangeGo_length : ∀ (n : Nat) (s : Int), (dateRangeGo n s).length = n
  | 0, _ => rfl
  | n + 1, s => by simp [dateRangeGo, dateRangeGo_length n]

theorem dateRange_length (s e : Int) : (dateRange s e).length = (e - s + 1).toNat :=
  dateRangeGo_length _ s

theorem mem_dateRangeGo : ∀ {n : Nat} {s d : Int},
    d ∈ dateRangeGo n s ↔ s ≤ d ∧ d < s + n := by
  intro n
  induction n with
  | zero =>
    intro s d
    simp only [dateRangeGo, List.not_mem_nil, false_iff]
    omega
  | succ m ih =>
    intro s d
    simp only [dateRangeGo, List.mem_cons, ih]
    omega

theorem mem_dateRange {s e d : Int} : d ∈ dateRange s e ↔ s ≤ d ∧ d ≤ e := by
  rw [dateRange, mem_dateRangeGo]
  omega

theorem dateRange_eq_nil {s e : Int} (h : e < s) : dateRange s e = [] := by
  have h0 : (e - s + 1).toNat = 0 := by omega
  rw [dateRange, h0]
  rfl

theorem dateRange_eq_cons {s e : Int} (h : s ≤ e) :
    dateRange s e = s :: dateRange (s + 1) e := by
  have hn : (e - s + 1).toNat = (e - (s + 1) + 1).toNat + 1 := by omega
  rw [dateRange, hn]
  rfl

theorem dateRangeGo_chain' : ∀ (n : Nat) (s : Int),
    List.Chain' (fun p q => q = p + 1) (dateRangeGo n s) := by
  intro n
  induction n with
  | zero => intro s; exact List.chain'_nil
  | succ m ih =>
    intro s
    cases m with
    | zero => exact List.chain'_singleton s
    | succ k => exact List.Chain'.cons rfl (ih (s + 1))

theorem dateRange_chain' (s e : Int) :
    List.Chain' (fun p q => q = p + 1) (dateRange s e) :=
  dateRangeGo_chain' _ s

theorem dateRange_sorted (s e : Int) : List.Sorted (· < ·) (dateRange s e) := by
  rw [List.Sorted, ← List.chain'_iff_pairwise]
  exact (dateRange_chain' s e).imp (fun h => by omega)

/-! ### The sorted key union of the outer merge -/

theorem mem_insertKey {d a : Int} {l : List Int} :
    a ∈ insertKey d l ↔ a = d ∨ a ∈ l := by
  induction l with
  | nil => simp [insertKey]
  | cons x xs ih =>
    simp only [insertKey]
    by_cases h1 : d < x
    · rw [if_pos h1]
      simp [List.mem_cons]
    · by_cases h2 : d = x
      · rw [if_neg h1, if_pos h2]
        subst h2
        simp only [List.mem_cons]
        tauto
      · rw [if_neg h1, if_neg h2]
        simp only [List.mem_cons, ih]
        tauto

theorem sorted_insertKey {d : Int} {l : List Int} (hl : List.Sorted (· < ·) l) :
    List.Sorted (· < ·) (insertKey d l) := by
  induction l with
  | nil => simp [insertKey]
  | cons x xs ih =>
    rw [List.sorted_cons] at hl
    simp only [insertKey]
    by_cases h1 : d < x
    · rw [if_pos h1, List.sorted_cons]
      refine ⟨?_, List.sorted_cons.mpr hl⟩
      intro b hb
      rcases List.mem_cons.mp hb with rfl | hb
      · exact h1
      · exact lt_trans h1 (hl.1 b hb)
    · by_cases h2 : d = x
      · rw [if_neg h1, if_pos h2]
        exact List.sorted_cons.mpr hl
      · rw [if_neg h1, if_neg h2, List.sorted_cons]
        refine ⟨?_, ih hl.2⟩
        intro b hb
        rcases mem_insertKey.mp hb with rfl | hb
        · omega
        · exact hl.1 b hb

theorem sortedKeys_sorted (xs ys : List Int) :
    List.Sorted (· < ·) (sortedKeys xs ys) := by
  unfold sortedKeys
  generalize xs ++ ys = l
  induction l with
  | nil => exact List.sorted_nil
  | cons b l ih =>
    rw [List.foldr_cons]
    exact sorted_insertKey ih

theorem mem_sortedKeys {a : Int} {xs ys : List Int} :
    a ∈ sortedKeys xs ys ↔ a ∈ xs ∨ a ∈ ys := by
  unfold sortedKeys
  rw [← List.mem_append]
  generalize xs ++ ys = l
  induction l with
  | nil => simp
  | cons b l ih =>
    rw [List.foldr_cons, mem_insertKey, ih, List.mem_cons]

theorem sorted_eq_of_mem_iff :
    ∀ {l₁ l₂ : List Int}, List.Sorted (· < ·) l₁ → List.Sorted (· < ·) l₂ →
      (∀ a, a ∈ l₁ ↔ a ∈ l₂) → l₁ = l₂ := by
  intro l₁
  induction l₁ with
  | nil =>
    intro l₂ _ _ hmem
    cases l₂ with
    | nil => rfl
    | cons b t => exact absurd ((hmem b).mpr (List.mem_cons_self b t)) (by simp)
  | cons a t₁ ih =>
    intro l₂ h₁ h₂ hmem
    cases l₂ with
    | nil => exact absurd ((hmem a).mp (List.mem_cons_self a t₁)) (by simp)
    | cons b t₂ =>
      rw [List.sorted_cons] at h₁ h₂
      have hab : a = b := by
        rcases List.mem_cons.mp ((hmem a).mp (List.mem_cons_self a t₁)) with h | h
        · exact h
        · rcases List.mem_cons.mp ((hmem b).mpr (List.mem_cons_self b t₂)) with h' | h'
          · omega
          · have ha := h₂.1 a h
            have hb := h₁.1 b h'
            omega
      subst hab
      have htails : ∀ c, c ∈ t₁ ↔ c ∈ t₂ := by
        intro c
        constructor
        · intro hc
          have hca := h₁.1 c hc
          rcases List.mem_cons.mp ((hmem c).mp (List.mem_cons_of_mem a hc)) with h | h
          · omega
          · exact h
        · intro hc
          have hca := h₂.1 c hc
          rcases List.mem_cons.mp ((hmem c).mpr (List.mem_cons_of_mem a hc)) with h | h
          · omega
          · exact h
      rw [ih h₁.2 h₂.2 htails]

theorem sortedKeys_eq_right {xs ys : List Int} (hsub : ∀ a ∈ xs, a ∈ ys)
    (hys : List.Sorted (· < ·) ys) : sortedKeys xs ys = ys := by
  refine sorted_eq_of_mem_iff (sortedKeys_sorted xs ys) hys ?_
  intro a
  rw [mem_sortedKeys]
  constructor
  · rintro (h | h)
    · exact hsub a h
    · exact h
  · exact Or.inr

/-! ### Evaluating the outer merges of `get_window_data` -/

theorem outerMergeFill_eq {rows : List (Int × Int)} {dates : List Int}
    (hsub : ∀ p ∈ rows, p.1 ∈ dates) (hd : List.Sorted (· < ·) dates) :
    outerMergeFill rows dates = dates.map (fun d => (d, lookupCount rows d)) := by
  have hkeys : ∀ a ∈ rows.map Prod.fst, a ∈ dates := by
    intro a ha
    rcases List.mem_map.mp ha with ⟨p, hp, rfl⟩
    exact hsub p hp
  unfold outerMergeFill
  rw [sortedKeys_eq_right hkeys hd]

theorem lookupCount_map_filter (l : List Int) (g : Int → Int)
    (p : Int × Int → Bool) (x : Int) :
    lookupCount ((l.map (fun d => (d, g d))).filter p) x =
      if x ∈ l ∧ p (x, g x) then g x else 0 := by
  induction l with
  | nil => simp [lookupCount]
  | cons d l ih =>
    simp only [List.map_cons, List.filter_cons]
    by_cases hp : p (d, g d) = true
    · rw [if_pos hp]
      simp only [lookupCount]
      by_cases hx : d = x
      · subst hx
        rw [if_pos rfl, if_pos ⟨List.mem_cons_self d l, hp⟩]
      · have hx' : ¬(x = d) := fun h => hx h.symm
        rw [if_neg hx, ih]
        by_cases hm : x ∈ l <;> by_cases hq : p (x, g x) = true <;>
          simp [List.mem_cons, hx', hm, hq]
    · rw [if_neg hp, ih]
      by_cases hx : x = d
      · subst hx
        simp [hp]
      · by_cases hm : x ∈ l <;> simp [List.mem_cons, hx, hm]

theorem merged_skeleton (ev : List Int) (s e : Int) :
    outerMergeFill (rawCounts ev s e) (dateRange s e) =
      (dateRange s e).map (fun d => (d, countOn ev d)) := by
  have hsub : ∀ p ∈ rawCounts ev s e, p.1 ∈ dateRange s e := by
    intro p hp
    simp only [rawCounts, List.mem_filter] at hp
    rcases List.mem_map.mp hp.1 with ⟨d, hd, rfl⟩
    exact hd
  rw [outerMergeFill_eq hsub (dateRange_sorted s e)]
  apply List.map_congr_left
  intro d hd
  simp only [rawCounts]
  rw [lookupCount_map_filter]
  by_cases h : countOn ev d = 0
  · simp [hd, h]
  · simp [hd, h]

theorem merged_window (ev : List Int) (S E lo hi : Int) (h1 : S ≤ lo) (h2 : hi ≤ E) :
    outerMergeFill
      (((dateRange S E).map (fun d => (d, countOn ev d))).filter
        (fun r => decide (lo < r.1 ∧ r.1 ≤ hi)))
      (dateRange lo hi) =
      (dateRange lo hi).map (fun d => (d, if lo < d then countOn ev d else 0)) := by
  have hsub : ∀ p ∈ ((dateRange S E).map (fun d => (d, countOn ev d))).filter
      (fun r => decide (lo < r.1 ∧ r.1 ≤ hi)), p.1 ∈ dateRange lo hi := by
    intro p hp
    rw [List.mem_filter] at hp
    have hb := of_decide_eq_true hp.2
    exact mem_dateRange.mpr ⟨by omega, hb.2⟩
  rw [outerMergeFill_eq hsub (dateRange_sorted lo hi)]
  apply List.map_congr_left
  intro d hd
  rw [lookupCount_map_filter]
  rw [mem_dateRange] at hd
  by_cases hlo : lo < d
  · have hmem : d ∈ dateRange S E := mem_dateRange.mpr ⟨by omega, by omega⟩
    have hcond : d ∈ dateRange S E ∧
        (decide (lo < d ∧ d ≤ hi)) = true := ⟨hmem, by simp [hlo, hd.2]⟩
    rw [if_pos hcond, if_pos hlo]
  · have hcond : ¬(d ∈ dateRange S E ∧ (decide (lo < d ∧ d ≤ hi)) = true) := by
      simp [hlo]
    rw [if_neg hcond, if_neg hlo]

theorem filter_dateRange (S E lo hi : Int) (h1 : S ≤ lo + 1) (h2 : hi ≤ E) :
    (dateRange S E).filter (fun d => decide (lo < d ∧ d ≤ hi)) =
      dateRange (lo + 1) hi := by
  refine sorted_eq_of_mem_iff ?_ (dateRange_sorted (lo + 1) hi) ?_
  · exact List.Pairwise.filter _ (dateRange_sorted S E)
  · intro d
    rw [List.mem_filter, mem_dateRange, mem_dateRange]
    constructor
    · rintro ⟨hr, hb⟩
      have hb' := of_decide_eq_true hb
      omega
    · rintro ⟨hl, hr⟩
      exact ⟨⟨by omega, by omega⟩, by simp; omega⟩

theorem filtered_skeleton (ev : List Int) (S E lo hi : Int)
    (h1 : S ≤ lo + 1) (h2 : hi ≤ E) :
    ((dateRange S E).map (fun d => (d, countOn ev d))).filter
      (fun r => decide (lo < r.1 ∧ r.1 ≤ hi)) =
      (dateRange (lo + 1) hi).map (fun d => (d, countOn ev d)) := by
  rw [List.filter_map]
  rw [show ((fun r : Int × Int => decide (lo < r.1 ∧ r.1 ≤ hi)) ∘
      (fun d => (d, countOn ev d))) = (fun d : Int => decide (lo < d ∧ d ≤ hi)) from rfl]
  rw [filter_dateRange S E lo hi h1 h2]

/-! ### The cumulative-sum column -/

theorem withCumsum_length (rows : List (Int × Int)) :
    ∀ acc : Int, (withCumsum acc rows).length = rows.length := by
  induction rows with
  | nil => intro acc; rfl
  | cons r rs ih => intro acc; simp [withCumsum, ih]

theorem withCumsum_map_date (rows : List (Int × Int)) :
    ∀ acc : Int, (withCumsum acc rows).map WRow.date = rows.map Prod.fst := by
  induction rows with
  | nil => intro acc; rfl
  | cons r rs ih => intro acc; simp [withCumsum, ih]

theorem withCumsum_map_count (rows : List (Int × Int)) :
    ∀ acc : Int, (withCumsum acc rows).map WRow.count = rows.map Prod.snd := by
  induction rows with
  | nil => intro acc; rfl
  | cons r rs ih => intro acc; simp [withCumsum, ih]

theorem withCumsum_get_cum (rows : List (Int × Int)) :
    ∀ (acc : Int) (i : Nat) (h : i < (withCumsum acc rows).length),
      ((withCumsum acc rows).get ⟨i, h⟩).cum =
        acc + (((withCumsum acc rows).take (i + 1)).map WRow.count).sum := by
  induction rows with
  | nil => intro acc i h; simp [withCumsum] at h
  | cons r rs ih =>
    intro acc i h
    cases i with
    | zero => simp [withCumsum]
    | succ j =>
      have h' : j < (withCumsum (acc + r.2) rs).length := by
        simpa [withCumsum] using h
      have hrec := ih (acc + r.2) j h'
      simp only [withCumsum, List.get_cons_succ, List.take_succ_cons,
        List.map_cons, List.sum_cons]
      rw [hrec]
      ring

theorem withCumsum_zero_get_cum (rows : List (Int × Int)) (i : Nat)
    (h : i < (withCumsum 0 rows).length) :
    ((withCumsum 0 rows).get ⟨i, h⟩).cum =
      (((withCumsum 0 rows).take (i + 1)).map WRow.count).sum := by
  rw [withCumsum_get_cum]
  ring

/-! ### The four windows, evaluated -/

theorem get_window_data_eq (a : Int) (ev : List Int) (days : Int) (hd : 1 ≤ days) :
    get_window_data a ev days =
      { data := withCumsum 0 ((dateRange (a - 4 * days) a).map
          (fun d => (d, countOn ev d)))
        current := withCumsum 0 ((dateRange (a - days) a).map
          (fun d => (d, if a - days < d then countOn ev d else 0)))
        previous := withCumsum 0 ((dateRange (a - 2 * days) (a - days)).map
          (fun d => (d, if a - 2 * days < d then countOn ev d else 0)))
        previous2 := withCumsum 0 ((dateRange (a - 3 * days) (a - 2 * days)).map
          (fun d => (d, if a - 3 * days < d then countOn ev d else 0)))
        previous3 := withCumsum 0 ((dateRange (a - 4 * days + 1) (a - 3 * days)).map
          (fun d => (d, countOn ev d))) } := by
  simp only [get_window_data]
  rw [merged_skeleton]
  rw [filtered_skeleton ev (a - 4 * days) a (a - 4 * days) (a - 3 * days)
      (by omega) (by omega)]
  rw [merged_window ev (a - 4 * days) a (a - days) a (by omega) (by omega)]
  rw [merged_window ev (a - 4 * days) a (a - 2 * days) (a - days) (by omega) (by omega)]
  rw [merged_window ev (a - 4 * days) a (a - 3 * days) (a - 2 * days) (by omega) (by omega)]

/-! ### The combined frame of `create_combined_data` -/

theorem withCombined_map_row (l : List (CRow × String)) :
    ∀ acc : Int,
      (withCombined acc l).map (fun r => (r.date, r.count, r.cum, r.period)) =
        l.map (fun p => (p.1.date, p.1.count, p.1.cum, p.2)) := by
  induction l with
  | nil => intro acc; rfl
  | cons p ps ih => intro acc; simp [withCombined, ih]

theorem withCombined_map_date (l : List (CRow × String)) :
    ∀ acc : Int, (withCombined acc l).map PRow.date = l.map (fun p => p.1.date) := by
  induction l with
  | nil => intro acc; rfl
  | cons p ps ih => intro acc; simp [withCombined, ih]

theorem withCombined_get_combined (l : List (CRow × String)) :
    ∀ (acc : Int) (i : Nat) (h : i < (withCombined acc l).length),
      ((withCombined acc l).get ⟨i, h⟩).combined =
        acc + (((withCombined acc l).take (i + 1)).map (fun r => r.count.getD 0)).sum := by
  induction l with
  | nil => intro acc i h; simp [withCombined] at h
  | cons p ps ih =>
    intro acc i h
    cases i with
    | zero => simp [withCombined]
    | succ j =>
      have h' : j < (withCombined (acc + p.1.count.getD 0) ps).length := by
        simpa [withCombined] using h
      have hrec := ih _ j h'
      simp only [withCombined, List.get_cons_succ, List.take_succ_cons,
        List.map_cons, List.sum_cons]
      rw [hrec]
      ring

theorem withCombined_zero_get (l : List (CRow × String)) (i : Nat)
    (h : i < (withCombined 0 l).length) :
    ((withCombined 0 l).get ⟨i, h⟩).combined =
      (((withCombined 0 l).take (i + 1)).map (fun r => r.count.getD 0)).sum := by
  rw [withCombined_get_combined]
  ring

theorem withCombined_period (l : List CRow) (t : String) :
    ∀ acc : Int, ∀ r ∈ withCombined acc (l.map (fun c => (c, t))), r.period = t := by
  induction l with
  | nil => intro acc r hr; simp [withCombined] at hr
  | cons c cs ih =>
    intro acc r hr
    simp only [List.map_cons, withCombined, List.mem_cons] at hr
    rcases hr with rfl | hr
    · rfl
    · exact ih _ r hr

theorem withCombined_append (l₁ l₂ : List (CRow × String)) :
    ∀ acc : Int, withCombined acc (l₁ ++ l₂) =
      withCombined acc l₁ ++
        withCombined (acc + (l₁.map (fun p => p.1.count.getD 0)).sum) l₂ := by
  induction l₁ with
  | nil => intro acc; simp [withCombined]
  | cons p ps ih =>
    intro acc
    simp only [List.cons_append, withCombined, List.map_cons, List.sum_cons,
      List.append_eq]
    rw [ih, add_assoc]

theorem create_combined_data_error (cur prev : List CRow) (h2 : prev.length < 2) :
    create_combined_data cur prev =
      .error "previous_data needs at least 2 rows." := by
  simp only [create_combined_data, if_pos h2]

theorem create_combined_data_ok (cur prev : List CRow) (h2 : ¬prev.length < 2) :
    create_combined_data cur prev = .ok
      { combined_data := withCombined 0
          (prev.dropLast.map (fun r => (r, "previous")) ++
            (({ date := (prev.getD (prev.length - 2) ⟨0, none, 0⟩).date,
                count := some 0, cum := 0 } : CRow) :: cur).map (fun r => (r, "current")))
        delta_pct := (get_delta_pct cur prev).1
        curr_line_color := (get_delta_pct cur prev).2.1
        curr_line_color_bg := (get_delta_pct cur prev).2.2 } := by
  simp only [create_combined_data, if_neg h2]

theorem dropLast_date_ne_last (prev : List CRow)
    (hnd : (prev.map CRow.date).Nodup) (hne : prev ≠ []) :
    ∀ c ∈ prev.dropLast, c.date ≠ (prev.getLast hne).date := by
  have hsplit : prev.dropLast ++ [prev.getLast hne] = prev :=
    List.dropLast_append_getLast hne
  have hmap : prev.map CRow.date =
      prev.dropLast.map CRow.date ++ [(prev.getLast hne).date] := by
    conv_lhs => rw [← hsplit]
    rw [List.map_append]
    rfl
  rw [hmap, List.nodup_append] at hnd
  intro c hc hceq
  exact hnd.2.2 (List.mem_map_of_mem CRow.date hc) (by simp [hceq])

theorem withCumsum_dates_of_skeleton (s e : Int) (f : Int → Int) (acc : Int) :
    (withCumsum acc ((dateRange s e).map (fun d => (d, f d)))).map WRow.date =
      dateRange s e := by
  rw [withCumsum_map_date, List.map_map]
  have hcomp : (Prod.fst ∘ fun d : Int => (d, f d)) = id := rfl
  rw [hcomp, List.map_id]

theorem windows_chain_dates (s e : Int) (f : Int → Int) (acc : Int) :
    List.Chain' (fun p q : WRow => q.date = p.date + 1)
      (withCumsum acc ((dateRange s e).map (fun d => (d, f d)))) := by
  refine (List.chain'_map (R := fun x y : Int => y = x + 1) WRow.date).mp ?_
  rw [withCumsum_dates_of_skeleton]
  exact dateRange_chain' s e

/-! ### The claims -/

/-- C1 (corrected): for every `days ≥ 1` and any events, the `current`,
`previous` and `previous2` series of `get_window_data` each hold exactly
`days + 1` rows on strictly consecutive calendar days (no gaps, no
duplicates), but the `previous3` series — never re-joined with its own full
day skeleton on lines 125–127 — holds exactly `days` rows (likewise
consecutive). -/
theorem window_row_shape (a : Int) (ev : List Int) (days : Int) (hd : 1 ≤ days) :
    ((get_window_data a ev days).current.length = days.toNat + 1 ∧
      (get_window_data a ev days).previous.length = days.toNat + 1 ∧
      (get_window_data a ev days).previous2.length = days.toNat + 1 ∧
      (get_window_data a ev days).previous3.length = days.toNat) ∧
    (List.Chain' (fun p q : WRow => q.date = p.date + 1)
        (get_window_data a ev days).current ∧
      List.Chain' (fun p q : WRow => q.date = p.date + 1)
        (get_window_data a ev days).previous ∧
      List.Chain' (fun p q : WRow => q.date = p.date + 1)
        (get_window_data a ev days).previous2 ∧
      List.Chain' (fun p q : WRow => q.date = p.date + 1)
        (get_window_data a ev days).previous3) := by
  rw [get_window_data_eq a ev days hd]
  refine ⟨⟨?_, ?_, ?_, ?_⟩, ?_, ?_, ?_, ?_⟩
  · simp only [withCumsum_length, List.length_map, dateRange_length]
    omega
  · simp only [withCumsum_length, List.length_map, dateRange_length]
    omega
  · simp only [withCumsum_length, List.length_map, dateRange_length]
    omega
  · simp only [withCumsum_length, List.length_map, dateRange_length]
    omega
  · exact windows_chain_dates _ _ _ _
  · exact windows_chain_dates _ _ _ _
  · exact windows_chain_dates _ _ _ _
  · exact windows_chain_dates _ _ _ _

/-- C1 witness: the shape facts at `anchor = 0`, no events, `days = 1`. -/
theorem window_row_shape_witness :
    (((get_window_data 0 [] 1).current.length = 2 ∧
      (get_window_data 0 [] 1).previous.length = 2 ∧
      (get_window_data 0 [] 1).previous2.length = 2 ∧
      (get_window_data 0 [] 1).previous3.length = 1) ∧
    (List.Chain' (fun p q : WRow => q.date = p.date + 1)
        (get_window_data 0 [] 1).current ∧
      List.Chain' (fun p q : WRow => q.date = p.date + 1)
        (get_window_data 0 [] 1).previous ∧
      List.Chain' (fun p q : WRow => q.date = p.date + 1)
        (get_window_data 0 [] 1).previous2 ∧
      List.Chain' (fun p q : WRow => q.date = p.date + 1)
        (get_window_data 0 [] 1).previous3)) :=
  window_row_shape 0 [] 1 (by decide)

/-- C1 counterexample: with `days = 1` the claim demands `days + 1 = 2` rows
in every series, but the prior-prior-previous series has a single row. -/
theorem previous3_row_count_cex :
    ((get_window_data 0 [] 1).previous3).length ≠ 2 := by decide

/-- C2 (confirmed): in each of the four window series, the `cumsum` value at
row `i` equals the sum of that series' own `count` column over rows
`0 .. i`; the running total restarts at every window's first row instead of
continuing a global running sum. -/
theorem window_cumsum_restart (a : Int) (ev : List Int) (days : Int) :
    (∀ (i : Nat) (h : i < (get_window_data a ev days).current.length),
        ((get_window_data a ev days).current.get ⟨i, h⟩).cum =
          (((get_window_data a ev days).current.take (i + 1)).map WRow.count).sum) ∧
    (∀ (i : Nat) (h : i < (get_window_data a ev days).previous.length),
        ((get_window_data a ev days).previous.get ⟨i, h⟩).cum =
          (((get_window_data a ev days).previous.take (i + 1)).map WRow.count).sum) ∧
    (∀ (i : Nat) (h : i < (get_window_data a ev days).previous2.length),
        ((get_window_data a ev days).previous2.get ⟨i, h⟩).cum =
          (((get_window_data a ev days).previous2.take (i + 1)).map WRow.count).sum) ∧
    (∀ (i : Nat) (h : i < (get_window_data a ev days).previous3.length),
        ((get_window_data a ev days).previous3.get ⟨i, h⟩).cum =
          (((get_window_data a ev days).previous3.take (i + 1)).map WRow.count).sum) :=
  ⟨fun i h => withCumsum_zero_get_cum _ i h,
    fun i h => withCumsum_zero_get_cum _ i h,
    fun i h => withCumsum_zero_get_cum _ i h,
    fun i h => withCumsum_zero_get_cum _ i h⟩

/-- C8 (corrected): the four windows cover, in calendar days,
`[anchor - days, anchor]`, `[anchor - 2*days, anchor - days]`,
`[anchor - 3*days, anchor - 2*days]` and `(anchor - 4*days, anchor - 3*days]`;
adjacent windows are not disjoint — each of the first three shares its first
day with the next-older window (for example `anchor - days` lies in both the
current and the previous window). -/
theorem window_date_coverage (a : Int) (ev : List Int) (days : Int) (hd : 1 ≤ days) :
    (get_window_data a ev days).current.map WRow.date = dateRange (a - days) a ∧
    (get_window_data a ev days).previous.map WRow.date =
      dateRange (a - 2 * days) (a - days) ∧
    (get_window_data a ev days).previous2.map WRow.date =
      dateRange (a - 3 * days) (a - 2 * days) ∧
    (get_window_data a ev days).previous3.map WRow.date =
      dateRange (a - 4 * days + 1) (a - 3 * days) ∧
    (a - days) ∈ (get_window_data a ev days).current.map WRow.date ∧
    (a - days) ∈ (get_window_data a ev days).previous.map WRow.date := by
  rw [get_window_data_eq a ev days hd]
  refine ⟨?_, ?_, ?_, ?_, ?_, ?_⟩
  · exact withCumsum_dates_of_skeleton _ _ _ _
  · exact withCumsum_dates_of_skeleton _ _ _ _
  · exact withCumsum_dates_of_skeleton _ _ _ _
  · exact withCumsum_dates_of_skeleton _ _ _ _
  · rw [withCumsum_dates_of_skeleton, mem_dateRange]
    omega
  · rw [withCumsum_dates_of_skeleton, mem_dateRange]
    omega

/-- C8 witness: the coverage facts at `anchor = 0`, no events, `days = 1`. -/
theorem window_date_coverage_witness :
    ((get_window_data 0 [] 1).current.map WRow.date = dateRange (-1) 0 ∧
    (get_window_data 0 [] 1).previous.map WRow.date = dateRange (-2) (-1) ∧
    (get_window_data 0 [] 1).previous2.map WRow.date = dateRange (-3) (-2) ∧
    (get_window_data 0 [] 1).previous3.map WRow.date = dateRange (-3) (-3) ∧
    (-1 : Int) ∈ (get_window_data 0 [] 1).current.map WRow.date ∧
    (-1 : Int) ∈ (get_window_data 0 [] 1).previous.map WRow.date) := by
  have h := window_date_coverage 0 [] 1 (by decide)
  simpa using h

/-- C8 counterexample: the date `anchor - days` (here `-1` for `anchor = 0`,
`days = 1`) appears in both the current and the previous window, so the four
windows are not pairwise non-overlapping and the current window is not
`(anchor - days, anchor]`. -/
theorem window_overlap_cex :
    (-1 : Int) ∈ ((get_window_data 0 [] 1).current.map WRow.date) ∧
      (-1 : Int) ∈ ((get_window_data 0 [] 1).previous.map WRow.date) := by decide

/-- C3 (confirmed): the delta policy of `calc_delta`, on exact rationals:
`calc_delta 0 0 = 0`, `calc_delta x 0 = 1` for `x > 0`,
`calc_delta curr prev = (curr - prev) / prev` whenever `prev ≠ 0`, so
`calc_delta 150 100 = 1/2` and `calc_delta 50 100 = -1/2`; the function is
total, so a zero baseline never raises. -/
theorem calc_delta_policy :
    calc_delta (some 0) (some 0) = some 0 ∧
    (∀ x : ℚ, 0 < x → calc_delta (some x) (some 0) = some 1) ∧
    (∀ curr prev : ℚ, prev ≠ 0 →
      calc_delta (some curr) (some prev) = some ((curr - prev) / prev)) ∧
    calc_delta (some 150) (some 100) = some (1 / 2) ∧
    calc_delta (some 50) (some 100) = some (-(1 / 2)) := by
  refine ⟨rfl, ?_, ?_, by norm_num [calc_delta], by norm_num [calc_delta]⟩
  · intro x hx
    simp [calc_delta, hx.ne']
  · intro curr prev hp
    simp [calc_delta, hp]

/-- C10 (confirmed): `calc_delta curr 0 = 1` for every nonzero `curr`,
negative values included — the zero-baseline sentinel is keyed on
`curr != 0`, not on `curr > 0`. -/
theorem calc_delta_nonzero_baseline_curr (curr : ℚ) (h : curr ≠ 0) :
    calc_delta (some curr) (some 0) = some 1 := by
  simp [calc_delta, h]

/-- C10 witness: a negative later value also yields the sentinel `1`. -/
theorem calc_delta_nonzero_baseline_curr_witness :
    calc_delta (some (-5)) (some 0) = some 1 :=
  calc_delta_nonzero_baseline_curr (-5) (by norm_num)

/-- C6 (confirmed): `create_combined_data` fails (raises `ValueError`) iff
the earlier window passed to it has fewer than 2 rows; the embedding is a
pure function, so a failing call leaves both inputs untouched. -/
theorem combine_requires_two_rows (cur prev : List CRow) :
    (∃ e, create_combined_data cur prev = .error e) ↔ prev.length < 2 := by
  by_cases h : prev.length < 2
  · simp only [h, iff_true]
    exact ⟨_, create_combined_data_error cur prev h⟩
  · simp only [h, iff_false]
    rintro ⟨e, he⟩
    rw [create_combined_data_ok cur prev h] at he
    exact absurd he (by simp)

/-- C9 (corrected, amended): the window builder is deterministic in
`(CURRENT_DATE, events, days)` — the embedding is a pure function, so two
calls with identical inputs agree and the events are never mutated — but the
anchor is the implicit module-level `CURRENT_DATE`, not an explicit
parameter of `get_window_data(df, days)`. -/
theorem window_builder_deterministic (a : Int) (ev : List Int) (days : Int) :
    get_window_data a ev days = get_window_data a ev days := rfl

/-- C9 counterexample: the output depends on the process-wide `CURRENT_DATE`
captured at import (app.py line 13): identical `events` and `days` under two
different current dates give different windows. -/
theorem current_date_dependence_cex :
    get_window_data 100 [] 1 ≠ get_window_data 200 [] 1 := by decide

/-- C7 (corrected, amended): `get_window_data` performs no validation of
`days`: for every `days < 1` it raises nothing and still returns a
`WindowSet` — single-day windows with an empty fourth window at `days = 0`,
entirely empty windows for `days < 0`.  The supported-size menu is enforced
only by the UI selector, not by the builder. -/
theorem no_days_validation (a : Int) (ev : List Int) (days : Int) (hd : days < 1) :
    get_window_data a ev days =
      if days = 0 then
        { data := [⟨a, countOn ev a, countOn ev a⟩]
          current := [⟨a, 0, 0⟩]
          previous := [⟨a, 0, 0⟩]
          previous2 := [⟨a, 0, 0⟩]
          previous3 := [] }
      else
        { data := [], current := [], previous := [], previous2 := [],
          previous3 := [] } := by
  by_cases h0 : days = 0
  · subst h0
    rw [if_pos rfl]
    have hself : dateRange a a = [a] := by
      rw [dateRange_eq_cons le_rfl, dateRange_eq_nil (by omega)]
    simp only [get_window_data, mul_zero, sub_zero]
    rw [merged_skeleton ev a a, hself]
    simp [outerMergeFill, sortedKeys, insertKey, lookupCount, withCumsum]
  · rw [if_neg h0]
    simp only [get_window_data, rawCounts]
    rw [dateRange_eq_nil (by omega : (a : Int) < a - 4 * days)]
    rw [dateRange_eq_nil (by omega : (a : Int) < a - days)]
    rw [dateRange_eq_nil (by omega : (a - days : Int) < a - 2 * days)]
    rw [dateRange_eq_nil (by omega : (a - 2 * days : Int) < a - 3 * days)]
    rfl

/-- C7 witness: `days = 0` is `< 1`, and the builder's value there is the
amended description's. -/
theorem no_days_validation_witness :
    get_window_data 0 [] 0 =
      if (0 : Int) = 0 then
        { data := [⟨0, countOn [] 0, countOn [] 0⟩]
          current := [⟨0, 0, 0⟩]
          previous := [⟨0, 0, 0⟩]
          previous2 := [⟨0, 0, 0⟩]
          previous3 := [] }
      else
        { data := [], current := [], previous := [], previous2 := [],
          previous3 := [] } :=
  no_days_validation 0 [] 0 (by decide)

/-- C7 counterexample: at `days = 0 < 1` the builder raises no
`InvalidArgument`; it returns a fully formed `WindowSet`. -/
theorem days_zero_returns_windows_cex :
    get_window_data 0 [] 0 =
      { data := [⟨0, 0, 0⟩], current := [⟨0, 0, 0⟩], previous := [⟨0, 0, 0⟩],
        previous2 := [⟨0, 0, 0⟩], previous3 := [] } := by decide

/-- C4 (confirmed): after a successful `create_combined_data`, the first
"current"-tagged row of the combined frame has `count = 0`, `cumsum = 0` and
the date of the earlier window's second-to-last row; and, the earlier
window's dates being pairwise distinct, its original final row appears in no
"previous"-tagged row of the result. -/
theorem combine_alignment (cur prev : List CRow) (res : CombinedResult)
    (hnd : (prev.map CRow.date).Nodup)
    (hok : create_combined_data cur prev = .ok res) :
    ((res.combined_data.filter (fun r => decide (r.period = "current"))).head?).map
        (fun r => (r.date, r.count, r.cum)) =
      some ((prev.getD (prev.length - 2) ⟨0, none, 0⟩).date, some 0, (0 : Int)) ∧
    (∀ r ∈ res.combined_data.filter (fun r => decide (r.period = "previous")),
      r.date ≠ (prev.getD (prev.length - 1) ⟨0, none, 0⟩).date) := by
  have h2 : ¬prev.length < 2 := by
    intro h
    rw [create_combined_data_error cur prev h] at hok
    exact absurd hok (by simp)
  rw [create_combined_data_ok cur prev h2] at hok
  injection hok with hok
  subst hok
  dsimp only
  rw [withCombined_append, List.map_cons]
  constructor
  · rw [List.filter_append]
    have hprevnil :
        (withCombined 0 (prev.dropLast.map (fun r => (r, "previous")))).filter
          (fun r => decide (r.period = "current")) = [] := by
      rw [List.filter_eq_nil_iff]
      intro r hr
      have hp := withCombined_period _ _ _ r hr
      simp [hp]
    rw [hprevnil, List.nil_append]
    simp only [withCombined, List.filter_cons]
    simp
  · intro r hr
    rw [List.filter_append] at hr
    have hcurnil :
        (withCombined
            (0 + ((prev.dropLast.map (fun r => (r, "previous"))).map
              (fun p => p.1.count.getD 0)).sum)
            ((({ date := (prev.getD (prev.length - 2) ⟨0, none, 0⟩).date,
                 count := some 0, cum := 0 } : CRow), "current") ::
              cur.map (fun r => (r, "current")))).filter
          (fun r => decide (r.period = "previous")) = [] := by
      rw [List.filter_eq_nil_iff]
      intro r hr
      have hp : r.period = "current" := by
        have hmap : (({ date := (prev.getD (prev.length - 2) ⟨0, none, 0⟩).date,
                        count := some 0, cum := 0 } : CRow), "current") ::
              cur.map (fun r => (r, "current")) =
            (({ date := (prev.getD (prev.length - 2) ⟨0, none, 0⟩).date,
                count := some 0, cum := 0 } : CRow) :: cur).map
              (fun r => (r, "current")) := by
          rw [List.map_cons]
        rw [hmap] at hr
        exact withCombined_period _ _ _ r hr
      simp [hp]
    rw [hcurnil, List.append_nil] at hr
    have hrmem := List.mem_of_mem_filter hr
    have hdmem : r.date ∈
        (withCombined 0 (prev.dropLast.map (fun r => (r, "previous")))).map
          PRow.date :=
      List.mem_map_of_mem _ hrmem
    rw [withCombined_map_date, List.map_map] at hdmem
    rcases List.mem_map.mp hdmem with ⟨c, hc, hcd⟩
    have hne : prev ≠ [] := by
      intro hnil
      rw [hnil] at h2
      simp at h2
    have hlen : prev.length - 1 < prev.length := by omega
    have hlast : prev.getD (prev.length - 1) ⟨0, none, 0⟩ = prev.getLast hne := by
      rw [List.getLast_eq_getElem, List.getD_eq_getElem prev _ hlen]
    rw [hlast]
    intro heq
    refine dropLast_date_ne_last prev hnd hne c hc ?_
    rw [show c.date = ((fun p : CRow × String => p.1.date) ∘
      (fun r => (r, "previous"))) c from rfl, hcd, heq]

/-- C4 witness: a concrete two-row earlier window and empty later window. -/
theorem combine_alignment_witness :
    ((((⟨[⟨0, some 1, 1, "previous", 1⟩, ⟨0, some 0, 0, "current", 1⟩], none,
        "rgba(33, 195, 84, 0.1)",
        "rgb(21, 130, 55)"⟩ : CombinedResult).combined_data.filter
          (fun r => decide (r.period = "current"))).head?).map
        (fun r => (r.date, r.count, r.cum)) = some ((0 : Int), some 0, (0 : Int))) ∧
    (∀ r ∈ (⟨[⟨0, some 1, 1, "previous", 1⟩, ⟨0, some 0, 0, "current", 1⟩], none,
        "rgba(33, 195, 84, 0.1)",
        "rgb(21, 130, 55)"⟩ : CombinedResult).combined_data.filter
          (fun r => decide (r.period = "previous")),
      r.date ≠ (1 : Int)) :=
  combine_alignment [] [⟨0, some 1, 1⟩, ⟨1, some 2, 3⟩]
    ⟨[⟨0, some 1, 1, "previous", 1⟩, ⟨0, some 0, 0, "current", 1⟩], none,
      "rgba(33, 195, 84, 0.1)", "rgb(21, 130, 55)"⟩ (by decide) rfl

/-- C5 (confirmed): the combined frame is the earlier window minus its last
row (tagged "previous") followed by the synthetic row and the later window
(tagged "current"), and its `combined_cumsum` at each row is the running sum
of the `count` column over the whole concatenation, missing counts as 0,
independent of the windows' own `cumsum` columns. -/
theorem combine_concat_cumsum (cur prev : List CRow) (res : CombinedResult)
    (hok : create_combined_data cur prev = .ok res) :
    res.combined_data.map (fun r => (r.date, r.count, r.cum, r.period)) =
      prev.dropLast.map (fun r => (r.date, r.count, r.cum, "previous")) ++
        (({ date := (prev.getD (prev.length - 2) ⟨0, none, 0⟩).date,
            count := some 0, cum := 0 } : CRow) :: cur).map
          (fun r => (r.date, r.count, r.cum, "current")) ∧
    ∀ (i : Nat) (h : i < res.combined_data.length),
      (res.combined_data.get ⟨i, h⟩).combined =
        ((res.combined_data.take (i + 1)).map (fun r => r.count.getD 0)).sum := by
  have h2 : ¬prev.length < 2 := by
    intro h
    rw [create_combined_data_error cur prev h] at hok
    exact absurd hok (by simp)
  rw [create_combined_data_ok cur prev h2] at hok
  injection hok with hok
  subst hok
  dsimp only
  constructor
  · rw [withCombined_map_row, List.map_append, List.map_map, List.map_map]
    rfl
  · intro i h
    exact withCombined_zero_get _ i h

/-- C5 witness: a concrete pair of windows, one later count missing. -/
theorem combine_concat_cumsum_witness :
    ((⟨[⟨0, some 1, 0, "previous", 1⟩, ⟨0, some 0, 0, "current", 1⟩,
        ⟨5, none, 7, "current", 1⟩], some 1, "rgba(33, 195, 84, 0.1)",
        "rgb(21, 130, 55)"⟩ : CombinedResult).combined_data.map
        (fun r => (r.date, r.count, r.cum, r.period)) =
      ([⟨0, some 1, 0⟩, ⟨1, some 2, 0⟩] : List CRow).dropLast.map
          (fun r => (r.date, r.count, r.cum, "previous")) ++
        ((⟨0, some 0, 0⟩ : CRow) :: [(⟨5, none, 7⟩ : CRow)]).map
          (fun r => (r.date, r.count, r.cum, "current"))) ∧
    (∀ (i : Nat) (h : i < (⟨[⟨0, some 1, 0, "previous", 1⟩,
        ⟨0, some 0, 0, "current", 1⟩, ⟨5, none, 7, "current", 1⟩], some 1,
        "rgba(33, 195, 84, 0.1)",
        "rgb(21, 130, 55)"⟩ : CombinedResult).combined_data.length),
      ((⟨[⟨0, some 1, 0, "previous", 1⟩, ⟨0, some 0, 0, "current", 1⟩,
        ⟨5, none, 7, "current", 1⟩], some 1, "rgba(33, 195, 84, 0.1)",
        "rgb(21, 130, 55)"⟩ : CombinedResult).combined_data.get ⟨i, h⟩).combined =
        (((⟨[⟨0, some 1, 0, "previous", 1⟩, ⟨0, some 0, 0, "current", 1⟩,
          ⟨5, none, 7, "current", 1⟩], some 1, "rgba(33, 195, 84, 0.1)",
          "rgb(21, 130, 55)"⟩ : CombinedResult).combined_data.take (i + 1)).map
          (fun r => r.count.getD 0)).sum) :=
  combine_concat_cumsum [⟨5, none, 7⟩] [⟨0, some 1, 0⟩, ⟨1, some 2, 0⟩]
    ⟨[⟨0, some 1, 0, "previous", 1⟩, ⟨0, some 0, 0, "current", 1⟩,
      ⟨5, none, 7, "current", 1⟩], some 1, "rgba(33, 195, 84, 0.1)",
      "rgb(21, 130, 55)"⟩ rfl

end CumulativeOnboarding
